import Mathlib

/-!
Verification of the sliding-window rate limiter of `src/auth/rate-limiter.ts`
(classes and functions `RateLimiter`, `createRateLimitMiddleware`,
`RATE_LIMIT_PRESETS`, `createRateLimitFromPreset`).

Times are modelled as integers (milliseconds since the epoch, the value of
`Date.now()`), injected explicitly into every operation that reads the clock.
The limiter's `Map<string, RateLimitRecord>` store is modelled as an
insertion-ordered association list.
-/

set_option autoImplicit false

namespace RateLimit

/-- Resolved limiter configuration: the required fields of `RateLimitConfig`
after merging with `DEFAULT_RATE_LIMIT_CONFIG` (the key generator and the
callback fields are handled at the middleware model, not here). -/
structure Config where
  limit : Nat
  windowMs : Int
  headers : Bool := true
  message : String := "Too many requests, please try again later."
  deriving DecidableEq

/-- Internal record for tracking request timestamps (interface
`RateLimitRecord`). -/
structure RateLimitRecord where
  timestamps : List Int
  lastAccess : Int
  deriving DecidableEq

/-- Rate limit info returned by `check` and `hit` (interface `RateLimitInfo`);
`resetAt` is the millisecond instant that the source wraps in a `Date`. -/
structure RateLimitInfo where
  limit : Nat
  remaining : Nat
  resetAt : Int
  isLimited : Bool
  deriving DecidableEq

/-- The limiter's private `store : Map<string, RateLimitRecord>`, modelled as
an insertion-ordered association list (reachable stores have unique keys). -/
abbrev Store := List (String × RateLimitRecord)

/-- Behaviour of `Map.get`: the value at the first entry carrying the key. -/
def Store.get : Store → String → Option RateLimitRecord
  | [], _ => none
  | (k, v) :: rest, key => if k = key then some v else Store.get rest key

/-- Behaviour of `Map.set`: replaces the value of a present key in place and
appends an absent key at the end, as a JavaScript `Map` does. -/
def Store.set : Store → String → RateLimitRecord → Store
  | [], key, v => [(key, v)]
  | (k, w) :: rest, key, v =>
      if k = key then (k, v) :: rest else (k, w) :: Store.set rest key v

/-- Behaviour of `Map.delete`: removes the entries carrying the key (a real
`Map` has at most one such entry). -/
def Store.delete : Store → String → Store
  | [], _ => []
  | (k, v) :: rest, key =>
      if k = key then Store.delete rest key else (k, v) :: Store.delete rest key

/-- Behaviour of `Map.size`, backing the `size` getter of `RateLimiter`. -/
def Store.size (s : Store) : Nat := s.length

/-- Method `RateLimiter.cleanup`: evicts every record whose `lastAccess` is
more than `expireTime = windowMs * 2` before `now`, keeping the others. -/
def cleanup (cfg : Config) (now : Int) (s : Store) : Store :=
  let expireTime := cfg.windowMs * 2
  s.filter (fun kv => decide (¬ (now - kv.2.lastAccess > expireTime)))

/-- Method `RateLimiter.check`: reads (or creates) the record of the key,
prunes the timestamps outside the sliding window, updates `lastAccess`,
and derives the `RateLimitInfo`. The argument `now` stands for `Date.now()`.
The `resetAt` computation mirrors the JavaScript truthiness test
`oldestTimestamp ? oldest + windowMs : now + windowMs`, under which a
timestamp equal to `0` counts as absent. -/
def check (cfg : Config) (now : Int) (key : String) (s : Store) :
    RateLimitInfo × Store :=
  let windowStart := now - cfg.windowMs
  let record := (Store.get s key).getD { timestamps := [], lastAccess := now }
  let ts := record.timestamps.filter (fun t => decide (t > windowStart))
  let record1 : RateLimitRecord := { timestamps := ts, lastAccess := now }
  let remaining := cfg.limit - ts.length
  let isLimited := remaining == 0
  let resetAt : Int :=
    match ts.head? with
    | some oldest =>
        if oldest = 0 then now + cfg.windowMs else oldest + cfg.windowMs
    | none => now + cfg.windowMs
  ({ limit := cfg.limit, remaining := remaining, resetAt := resetAt,
     isLimited := isLimited }, Store.set s key record1)

/-- Method `RateLimiter.hit`: calls `check`; when not limited, pushes `now`
onto the record's timestamps and decrements `remaining`, floored at zero
(`Math.max(0, remaining - 1)`, which is truncated subtraction on `Nat`).
After `check` the key always has a record, so the `none` branch is
unreachable (the source asserts this with `this.store.get(key)!`). -/
def hit (cfg : Config) (now : Int) (key : String) (s : Store) :
    RateLimitInfo × Store :=
  let checked := check cfg now key s
  let info := checked.1
  let s1 := checked.2
  if info.isLimited then (info, s1)
  else
    match Store.get s1 key with
    | some record =>
        let record1 : RateLimitRecord :=
          { record with timestamps := record.timestamps ++ [now] }
        ({ info with remaining := info.remaining - 1 }, Store.set s1 key record1)
    | none => ({ info with remaining := info.remaining - 1 }, s1)

/-- Method `RateLimiter.reset`: drops the record of one key. -/
def reset (s : Store) (key : String) : Store := Store.delete s key

/-- Method `RateLimiter.resetAll`: clears the whole store. -/
def resetAll (_s : Store) : Store := []

/-- Method `RateLimiter.getInfo`, an alias for `check`. -/
def getInfo (cfg : Config) (now : Int) (key : String) (s : Store) :
    RateLimitInfo × Store :=
  check cfg now key s

/-- Helper naming the pruned timestamp list that `check` computes for a key
(read off the body of `check`; used only to state theorems). -/
def prunedTs (cfg : Config) (now : Int) (key : String) (s : Store) : List Int :=
  ((Store.get s key).getD { timestamps := [], lastAccess := now }).timestamps.filter
    (fun t => decide (t > now - cfg.windowMs))

theorem check_fst (cfg : Config) (now : Int) (key : String) (s : Store) :
    (check cfg now key s).1 =
      { limit := cfg.limit,
        remaining := cfg.limit - (prunedTs cfg now key s).length,
        resetAt :=
          match (prunedTs cfg now key s).head? with
          | some oldest =>
              if oldest = 0 then now + cfg.windowMs else oldest + cfg.windowMs
          | none => now + cfg.windowMs,
        isLimited := cfg.limit - (prunedTs cfg now key s).length == 0 } := rfl

theorem check_snd (cfg : Config) (now : Int) (key : String) (s : Store) :
    (check cfg now key s).2 =
      Store.set s key { timestamps := prunedTs cfg now key s, lastAccess := now } := rfl

theorem Store.get_set_self (s : Store) (key : String) (r : RateLimitRecord) :
    Store.get (Store.set s key r) key = some r := by
  induction s with
  | nil => simp [Store.set, Store.get]
  | cons kv rest ih =>
      obtain ⟨k, w⟩ := kv
      by_cases h : k = key
      · simp [Store.set, Store.get, h]
      · simp [Store.set, Store.get, h, ih]

theorem Store.get_set_ne (s : Store) (key k : String) (r : RateLimitRecord)
    (h : k ≠ key) : Store.get (Store.set s key r) k = Store.get s k := by
  induction s with
  | nil => simp [Store.set, Store.get, Ne.symm h]
  | cons kv rest ih =>
      obtain ⟨k0, w⟩ := kv
      by_cases h0 : k0 = key
      · subst h0
        simp [Store.set, Store.get, Ne.symm h]
      · simp [Store.set, Store.get, h0, ih]

theorem Store.get_delete_self (s : Store) (key : String) :
    Store.get (Store.delete s key) key = none := by
  induction s with
  | nil => simp [Store.delete, Store.get]
  | cons kv rest ih =>
      obtain ⟨k, w⟩ := kv
      by_cases h : k = key
      · simpa [Store.delete, h] using ih
      · simp [Store.delete, Store.get, h, ih]

theorem Store.get_delete_ne (s : Store) (key k : String) (h : k ≠ key) :
    Store.get (Store.delete s key) k = Store.get s k := by
  induction s with
  | nil => simp [Store.delete, Store.get]
  | cons kv rest ih =>
      obtain ⟨k0, w⟩ := kv
      by_cases h0 : k0 = key
      · subst h0
        simp [Store.delete, Store.get, Ne.symm h, ih]
      · simp [Store.delete, Store.get, h0, ih]

theorem Store.set_set (s : Store) (key : String) (r r1 : RateLimitRecord) :
    Store.set (Store.set s key r) key r1 = Store.set s key r1 := by
  induction s with
  | nil => simp [Store.set]
  | cons kv rest ih =>
      obtain ⟨k, w⟩ := kv
      by_cases h : k = key
      · simp [Store.set, h]
      · simp [Store.set, h, ih]

/-- Names of the entries of `RATE_LIMIT_PRESETS`. -/
inductive PresetName
  | strict
  | standard
  | relaxed
  | api
  | webhook
  | auth
  deriving DecidableEq

/-- One preset: a literal `{ limit, windowMs }` pair. -/
structure Preset where
  limit : Nat
  windowMs : Int
  deriving DecidableEq

/-- Constant `RATE_LIMIT_PRESETS`. -/
def RATE_LIMIT_PRESETS : PresetName → Preset
  | .strict => { limit := 30, windowMs := 60 * 1000 }
  | .standard => { limit := 60, windowMs := 60 * 1000 }
  | .relaxed => { limit := 120, windowMs := 60 * 1000 }
  | .api => { limit := 1000, windowMs := 60 * 60 * 1000 }
  | .webhook => { limit := 100, windowMs := 60 * 1000 }
  | .auth => { limit := 10, windowMs := 60 * 1000 }

/-- Partial user configuration (interface `RateLimitConfig`), restricted to
its data fields; an absent field is `none`. -/
structure UserConfig where
  limit : Option Nat := none
  windowMs : Option Int := none
  headers : Option Bool := none
  message : Option String := none
  deriving DecidableEq

/-- Object spread `{...a, ...b}` on configurations: a field present in `b`
wins over the same field of `a`. -/
def spread (a b : UserConfig) : UserConfig :=
  { limit := match b.limit with | some v => some v | none => a.limit,
    windowMs := match b.windowMs with | some v => some v | none => a.windowMs,
    headers := match b.headers with | some v => some v | none => a.headers,
    message := match b.message with | some v => some v | none => a.message }

/-- Constant `DEFAULT_RATE_LIMIT_CONFIG` restricted to the modelled fields. -/
def DEFAULT_RATE_LIMIT_CONFIG : Config :=
  { limit := 60, windowMs := 60 * 1000, headers := true,
    message := "Too many requests, please try again later." }

/-- Merging `{...DEFAULT_RATE_LIMIT_CONFIG, ...config}`, as done both by the
`RateLimiter` constructor and by `createRateLimitMiddleware`. -/
def resolveConfig (c : UserConfig) : Config :=
  { limit := c.limit.getD DEFAULT_RATE_LIMIT_CONFIG.limit,
    windowMs := c.windowMs.getD DEFAULT_RATE_LIMIT_CONFIG.windowMs,
    headers := c.headers.getD DEFAULT_RATE_LIMIT_CONFIG.headers,
    message := c.message.getD DEFAULT_RATE_LIMIT_CONFIG.message }

/-- The user configuration `{...RATE_LIMIT_PRESETS[preset]}`: presets carry
exactly the two fields `limit` and `windowMs`. -/
def presetUserConfig (p : PresetName) : UserConfig :=
  { limit := some (RATE_LIMIT_PRESETS p).limit,
    windowMs := some (RATE_LIMIT_PRESETS p).windowMs }

/-- The configuration `{...RATE_LIMIT_PRESETS[preset], ...overrides}` that
`createRateLimitFromPreset` hands to `createRateLimitMiddleware`. -/
def createRateLimitFromPresetConfig (p : PresetName) (overrides : UserConfig) :
    UserConfig :=
  spread (presetUserConfig p) overrides

/-- A user configuration carrying literally the fields `limit` and `windowMs`
and nothing else, for comparison with a preset. -/
def literalUserConfig (limit : Nat) (windowMs : Int) : UserConfig :=
  { limit := some limit, windowMs := some windowMs }

/-- Integer form of `Math.ceil(a / b)` for a positive divisor `b`. -/
def jsCeilDiv (a b : Int) : Int := -(Int.ediv (-a) b)

/-- Rejection body `{error, message, retryAfter}` sent with status 429. -/
structure RejectBody where
  error : String
  message : String
  retryAfter : Int
  deriving DecidableEq

/-- Observable response effects of one invocation of the middleware returned
by `createRateLimitMiddleware`: the headers set, the status and body written,
whether the custom `onLimitReached` handler was invoked, and whether `next()`
was called. -/
structure MwResponse where
  headerLimit : Option Nat := none
  headerRemaining : Option Nat := none
  headerReset : Option Int := none
  headerRetryAfter : Option Int := none
  status : Option Nat := none
  body : Option RejectBody := none
  customHandlerCalled : Bool := false
  calledNext : Bool := false
  deriving DecidableEq

/-- One invocation of the middleware returned by `createRateLimitMiddleware`,
after the request-dependent parts are evaluated: `skipThis` is the value of
`config.skip?.(req)`, `key` the value of the key generator on the request, and
`hasCustomHandler` tells whether `config.onLimitReached` is set. Returns the
observable response effects and the limiter store after the call. -/
def middlewareRun (cfg : Config) (hasCustomHandler skipThis : Bool)
    (key : String) (now : Int) (s : Store) : MwResponse × Store :=
  if skipThis then ({ calledNext := true }, s)
  else
    let h := hit cfg now key s
    let info := h.1
    let s1 := h.2
    let base : MwResponse :=
      if cfg.headers then
        { headerLimit := some info.limit,
          headerRemaining := some info.remaining,
          headerReset := some (jsCeilDiv info.resetAt 1000) }
      else {}
    if info.isLimited then
      let retryAfter := jsCeilDiv (info.resetAt - now) 1000
      if hasCustomHandler then
        ({ base with
            headerRetryAfter := some retryAfter
            customHandlerCalled := true }, s1)
      else
        ({ base with
            headerRetryAfter := some retryAfter
            status := some 429
            body := some { error := "RATE_LIMIT_EXCEEDED",
                           message := cfg.message,
                           retryAfter := retryAfter } }, s1)
    else
      ({ base with calledNext := true }, s1)

/-- An operation applied to one `RateLimiter`, carrying the `Date.now()` value
read by it where the source reads the clock. -/
inductive LimiterOp
  | hitOp (key : String) (now : Int)
  | checkOp (key : String) (now : Int)
  | resetOp (key : String)
  deriving DecidableEq

/-- The key an operation addresses. -/
def opKey : LimiterOp → String
  | .hitOp key _ => key
  | .checkOp key _ => key
  | .resetOp key => key

/-- States that the clock value read by an operation is at least `t0`. -/
def opTimeGE (t0 : Int) : LimiterOp → Prop
  | .hitOp _ now => t0 ≤ now
  | .checkOp _ now => t0 ≤ now
  | .resetOp _ => True

/-- Applies one operation, returning the `RateLimitInfo` it reports, if any,
and the store after it. -/
def applyOp (cfg : Config) (s : Store) : LimiterOp → Option RateLimitInfo × Store
  | .hitOp key now => (some (hit cfg now key s).1, (hit cfg now key s).2)
  | .checkOp key now => (some (check cfg now key s).1, (check cfg now key s).2)
  | .resetOp key => (none, reset s key)

/-- Runs a list of operations, collecting every reported `RateLimitInfo`. -/
def runTrace (cfg : Config) (s : Store) : List LimiterOp → List (Option RateLimitInfo)
  | [] => []
  | op :: ops => (applyOp cfg s op).1 :: runTrace cfg (applyOp cfg s op).2 ops

/-- The store left after a list of operations. -/
def runOps (cfg : Config) (s : Store) : List LimiterOp → Store
  | [] => s
  | op :: ops => runOps cfg (applyOp cfg s op).2 ops

/-- Runs a sequence of `hit` calls at the given clock values for one key,
returning the final store and whether every single hit was admitted. -/
def hitRun (cfg : Config) (key : String) : Store → List Int → Store × Bool
  | s, [] => (s, true)
  | s, t :: ts =>
      ((hitRun cfg key (hit cfg t key s).2 ts).1,
       (!(hit cfg t key s).1.isLimited) && (hitRun cfg key (hit cfg t key s).2 ts).2)

/-- Unfolding of `hit` through the characterisation of `check`. -/
theorem hit_eq (cfg : Config) (now : Int) (key : String) (s : Store) :
    hit cfg now key s =
      if (check cfg now key s).1.isLimited then check cfg now key s
      else
        ({ (check cfg now key s).1 with
             remaining := (check cfg now key s).1.remaining - 1 },
         Store.set s key
           { timestamps := prunedTs cfg now key s ++ [now], lastAccess := now }) := by
  by_cases h : (check cfg now key s).1.isLimited
  · simp [hit, h]
  · simp [hit, h, check_snd, Store.get_set_self, Store.set_set]

/-- Projection of `hit` onto the returned info. -/
theorem hit_fst (cfg : Config) (now : Int) (key : String) (s : Store) :
    (hit cfg now key s).1 =
      if (check cfg now key s).1.isLimited then (check cfg now key s).1
      else { (check cfg now key s).1 with
              remaining := (check cfg now key s).1.remaining - 1 } := by
  rw [hit_eq]
  by_cases h : (check cfg now key s).1.isLimited <;> simp [h]

/-- The info computed by `check` depends on the store only through the record
of the checked key. -/
theorem check_fst_congr (cfg : Config) (now : Int) (key : String) (s s1 : Store)
    (h : Store.get s key = Store.get s1 key) :
    (check cfg now key s).1 = (check cfg now key s1).1 := by
  simp [check_fst, prunedTs, h]

/-- The info returned by `hit` depends on the store only through the record of
the hit key. -/
theorem hit_fst_congr (cfg : Config) (now : Int) (key : String) (s s1 : Store)
    (h : Store.get s key = Store.get s1 key) :
    (hit cfg now key s).1 = (hit cfg now key s1).1 := by
  rw [hit_fst, hit_fst, check_fst_congr cfg now key s s1 h]

theorem hit_limit_eq (cfg : Config) (now : Int) (key : String) (s : Store) :
    (hit cfg now key s).1.limit = cfg.limit := by
  rw [hit_fst]
  split <;> simp [check_fst]

/-- Sample configuration used by concrete witnesses: 2 requests per 100 ms
(the `testStrict` fixture of the repository's test suite). -/
def cfg2_100 : Config := { limit := 2, windowMs := 100 }

/-- C2: `hit` first evaluates `check`; when the result is not limited it
appends `now` to the key's timestamp record and returns the check result with
`remaining` decremented by one (`Nat` subtraction is floored at 0); when the
result is limited it returns exactly the check result and the post-check
store, appending no timestamp. -/
theorem hit_follows_check (cfg : Config) (now : Int) (key : String) (s : Store) :
    ((check cfg now key s).1.isLimited = true →
       hit cfg now key s = check cfg now key s) ∧
    ((check cfg now key s).1.isLimited = false →
       ∃ r, Store.get (check cfg now key s).2 key = some r ∧
         hit cfg now key s =
           ({ (check cfg now key s).1 with
               remaining := (check cfg now key s).1.remaining - 1 },
            Store.set (check cfg now key s).2 key
              { r with timestamps := r.timestamps ++ [now] })) := by
  constructor
  · intro h
    rw [hit_eq]
    simp [h]
  · intro h
    refine ⟨{ timestamps := prunedTs cfg now key s, lastAccess := now }, ?_, ?_⟩
    · rw [check_snd]
      exact Store.get_set_self ..
    · rw [hit_eq, check_snd, Store.set_set]
      simp [h]

/-- Witness for C2 on a fresh key: the hypothesis of the non-limited branch
holds at the concrete input and the conclusion evaluates. -/
theorem hit_follows_check_witness :
    (check cfg2_100 0 "k" []).1.isLimited = false ∧
    (∃ r, Store.get (check cfg2_100 0 "k" []).2 "k" = some r ∧
      hit cfg2_100 0 "k" [] =
        ({ (check cfg2_100 0 "k" []).1 with
            remaining := (check cfg2_100 0 "k" []).1.remaining - 1 },
         Store.set (check cfg2_100 0 "k" []).2 "k"
           { r with timestamps := r.timestamps ++ [0] })) :=
  ⟨by decide, (hit_follows_check cfg2_100 0 "k" []).2 (by decide)⟩

/-- C8: selecting a preset by name is equivalent to passing its literal
`(limit, windowMs)` values: the resolved configurations coincide, hence the
middleware behaves identically on every request, with later overrides taking
precedence in both. -/
theorem preset_equivalent_to_literal (p : PresetName) (overrides : UserConfig) :
    resolveConfig (createRateLimitFromPresetConfig p overrides) =
      resolveConfig (spread
        (literalUserConfig (RATE_LIMIT_PRESETS p).limit
          (RATE_LIMIT_PRESETS p).windowMs) overrides) ∧
    ∀ (custom skipThis : Bool) (key : String) (now : Int) (s : Store),
      middlewareRun (resolveConfig (createRateLimitFromPresetConfig p overrides))
          custom skipThis key now s =
        middlewareRun (resolveConfig (spread
          (literalUserConfig (RATE_LIMIT_PRESETS p).limit
            (RATE_LIMIT_PRESETS p).windowMs) overrides))
          custom skipThis key now s :=
  ⟨rfl, fun _ _ _ _ _ => rfl⟩

/-- C9: with headers enabled and the request not skipped, the middleware sets
the three `X-RateLimit-*` headers on every response; it sets `Retry-After`
exactly on rejected requests and, absent a custom handler, answers a rejected
request with status 429 and the `RATE_LIMIT_EXCEEDED` body; an admitted
request gets no `Retry-After`, no status, and falls through to `next()`. -/
theorem middleware_headers (cfg : Config) (custom : Bool) (key : String)
    (now : Int) (s : Store) (hHeaders : cfg.headers = true) :
    (middlewareRun cfg custom false key now s).1.headerLimit = some cfg.limit ∧
    (middlewareRun cfg custom false key now s).1.headerRemaining =
      some (hit cfg now key s).1.remaining ∧
    (middlewareRun cfg custom false key now s).1.headerReset =
      some (jsCeilDiv (hit cfg now key s).1.resetAt 1000) ∧
    ((middlewareRun cfg custom false key now s).1.headerRetryAfter ≠ none ↔
      (hit cfg now key s).1.isLimited = true) ∧
    ((hit cfg now key s).1.isLimited = true →
       (middlewareRun cfg custom false key now s).1.headerRetryAfter =
         some (jsCeilDiv ((hit cfg now key s).1.resetAt - now) 1000)) ∧
    ((hit cfg now key s).1.isLimited = true → custom = false →
       (middlewareRun cfg custom false key now s).1.status = some 429 ∧
       (middlewareRun cfg custom false key now s).1.body =
         some { error := "RATE_LIMIT_EXCEEDED", message := cfg.message,
                retryAfter := jsCeilDiv ((hit cfg now key s).1.resetAt - now) 1000 }) ∧
    ((hit cfg now key s).1.isLimited = false →
       (middlewareRun cfg custom false key now s).1.headerRetryAfter = none ∧
       (middlewareRun cfg custom false key now s).1.calledNext = true ∧
       (middlewareRun cfg custom false key now s).1.status = none ∧
       (middlewareRun cfg custom false key now s).1.body = none) := by
  by_cases hl : (hit cfg now key s).1.isLimited
  · cases custom <;>
      simp [middlewareRun, hHeaders, hl, hit_limit_eq]
  · simp [middlewareRun, hHeaders, hl, hit_limit_eq]

/-- Witness for C9 at a concrete admitted request. -/
theorem middleware_headers_witness :
    cfg2_100.headers = true ∧
    (middlewareRun cfg2_100 false false "k" 0 []).1.headerLimit =
      some cfg2_100.limit :=
  ⟨rfl, (middleware_headers cfg2_100 false "k" 0 [] rfl).1⟩

theorem Store.get_mem (s : Store) (k : String) (r : RateLimitRecord)
    (h : Store.get s k = some r) : (k, r) ∈ s := by
  induction s with
  | nil => simp [Store.get] at h
  | cons kv rest ih =>
      obtain ⟨k0, w⟩ := kv
      by_cases h0 : k0 = k
      · subst h0
        simp [Store.get] at h
        simp [h]
      · simp [Store.get, h0] at h
        simp [ih h]

theorem Store.get_eq_none_of_not_mem (s : Store) (k : String)
    (h : k ∉ s.map Prod.fst) : Store.get s k = none := by
  induction s with
  | nil => simp [Store.get]
  | cons kv rest ih =>
      obtain ⟨k0, w⟩ := kv
      rw [List.map_cons] at h
      simp only [List.mem_cons, not_or] at h
      simp [Store.get, Ne.symm h.1, ih h.2]

/-- Reading a filtered store with unique keys. -/
theorem Store.get_filter (p : String × RateLimitRecord → Bool) (s : Store)
    (k : String) (hnd : (s.map Prod.fst).Nodup) :
    Store.get (s.filter p) k =
      (Store.get s k).bind (fun r => if p (k, r) then some r else none) := by
  induction s with
  | nil => simp [Store.get]
  | cons kv rest ih =>
      obtain ⟨k0, w⟩ := kv
      simp at hnd
      by_cases h0 : k0 = k
      · subst h0
        by_cases hp : p (k0, w)
        · simp [List.filter_cons, hp, Store.get]
        · simp [List.filter_cons, hp, Store.get]
          rw [ih hnd.2, Store.get_eq_none_of_not_mem rest k0 (by simpa using hnd.1)]
          rfl
      · by_cases hp : p (k0, w)
        · simp [List.filter_cons, hp, Store.get, h0, ih hnd.2]
        · simp [List.filter_cons, hp, Store.get, h0, ih hnd.2]

/-- C7: the cleanup sweep evicts exactly the records whose `lastAccess`
predates `now - windowMs * 2`: an entry survives the sweep iff it was present
and not stale (and survivors are untouched); on a store with unique keys an
evicted key reads back as absent, a kept key reads back its unchanged record;
and a key with no record is at full allowance — `check` on it reports
`remaining = limit` and `resetAt = now + windowMs`. -/
theorem cleanup_evicts_exactly (cfg : Config) (now : Int) (s : Store) :
    (∀ k r, (k, r) ∈ cleanup cfg now s ↔
       ((k, r) ∈ s ∧ ¬(now - r.lastAccess > cfg.windowMs * 2))) ∧
    ((s.map Prod.fst).Nodup →
       ∀ k r, Store.get s k = some r →
         ((now - r.lastAccess > cfg.windowMs * 2 →
             Store.get (cleanup cfg now s) k = none) ∧
          (¬(now - r.lastAccess > cfg.windowMs * 2) →
             Store.get (cleanup cfg now s) k = some r))) ∧
    (∀ k t, Store.get (cleanup cfg now s) k = none →
       (check cfg t k (cleanup cfg now s)).1.remaining = cfg.limit ∧
       (check cfg t k (cleanup cfg now s)).1.resetAt = t + cfg.windowMs) := by
  refine ⟨?_, ?_, ?_⟩
  · intro k r
    simp [cleanup, List.mem_filter]
  · intro hnd k r hget
    have hf := Store.get_filter
      (fun kv => decide (¬ (now - kv.2.lastAccess > cfg.windowMs * 2))) s k hnd
    constructor
    · intro hstale
      rw [cleanup, hf, hget]
      simp
      omega
    · intro hkeep
      rw [cleanup, hf, hget]
      simp
      omega
  · intro k t hnone
    simp [check_fst, prunedTs, hnone]

/-- Record of an abandoned key, for the concrete cleanup witnesses. -/
def rOld : RateLimitRecord := { timestamps := [5], lastAccess := 10 }

/-- Record of a recently active key, for the concrete cleanup witnesses. -/
def rNew : RateLimitRecord := { timestamps := [950], lastAccess := 950 }

/-- Store holding one abandoned and one active key. -/
def sOldNew : Store := [("old", rOld), ("new", rNew)]

/-- Witness for C7: at `now = 1000` with a 100 ms window, the sweep evicts the
key idle since 10 and keeps the key active at 950 untouched. -/
theorem cleanup_evicts_exactly_witness :
    Store.get (cleanup cfg2_100 1000 sOldNew) "old" = none ∧
    Store.get (cleanup cfg2_100 1000 sOldNew) "new" = some rNew :=
  ⟨((cleanup_evicts_exactly cfg2_100 1000 sOldNew).2.1 (by decide) "old" rOld
      (by decide)).1 (by decide),
   ((cleanup_evicts_exactly cfg2_100 1000 sOldNew).2.1 (by decide) "new" rNew
      (by decide)).2 (by decide)⟩

/-- C3 counterexample: calling `getInfo` on a never-seen key does change the
limiter's observable state: it creates an empty record for the key, so the
store differs from the empty store and the public `size` getter moves from 0
to 1. -/
theorem getInfo_creates_record :
    Store.get ([] : Store) "k" = none ∧
    (getInfo cfg2_100 1000 "k" []).2 ≠ ([] : Store) ∧
    Store.size (getInfo cfg2_100 1000 "k" []).2 = 1 ∧
    Store.size ([] : Store) = 0 := by
  decide

/-- C3 amended: `check` (and its alias `getInfo`) never appends a timestamp
and never consumes allowance — the record of every other key is untouched, the
checked key's record keeps exactly its in-window timestamps (pruning only),
and repeating the call at the same instant returns the same info — but it does
create an empty record for a never-seen key and refreshes `lastAccess`, so the
store itself is not left unchanged. -/
theorem getInfo_frame (cfg : Config) (now : Int) (key : String) (s : Store) :
    (∀ k, k ≠ key → Store.get (getInfo cfg now key s).2 k = Store.get s k) ∧
    (∀ r, Store.get s key = some r →
       Store.get (getInfo cfg now key s).2 key =
         some { timestamps :=
                  r.timestamps.filter (fun t => decide (t > now - cfg.windowMs)),
                lastAccess := now }) ∧
    (Store.get s key = none →
       Store.get (getInfo cfg now key s).2 key =
         some { timestamps := [], lastAccess := now }) ∧
    (getInfo cfg now key (getInfo cfg now key s).2).1 = (getInfo cfg now key s).1 := by
  refine ⟨?_, ?_, ?_, ?_⟩
  · intro k hk
    rw [getInfo, check_snd]
    exact Store.get_set_ne _ _ _ _ hk
  · intro r hr
    rw [getInfo, check_snd, Store.get_set_self]
    simp [prunedTs, hr]
  · intro hr
    rw [getInfo, check_snd, Store.get_set_self]
    simp [prunedTs, hr]
  · have hpr : prunedTs cfg now key (check cfg now key s).2 = prunedTs cfg now key s := by
      rw [check_snd]
      simp only [prunedTs, Store.get_set_self, Option.getD_some]
      rw [List.filter_filter]
      simp
    rw [getInfo, getInfo, check_fst, check_fst, hpr]

/-- Store with one key holding an in-window and an aged-out timestamp, for the
C3 witness. -/
def sTwoTs : Store := [("k", { timestamps := [5, 60], lastAccess := 60 })]

/-- Witness for C3 amended: at `now = 120` with a 100 ms window, `getInfo`
leaves the key with exactly the pruned timestamps `[60]` and `lastAccess`
refreshed. -/
theorem getInfo_frame_witness :
    Store.get sTwoTs "k" = some { timestamps := [5, 60], lastAccess := 60 } ∧
    Store.get (getInfo cfg2_100 120 "k" sTwoTs).2 "k" =
      some { timestamps :=
               [5, 60].filter (fun t => decide (t > 120 - cfg2_100.windowMs)),
             lastAccess := 120 } :=
  ⟨by decide,
   (getInfo_frame cfg2_100 120 "k" sTwoTs).2.1
     { timestamps := [5, 60], lastAccess := 60 } (by decide)⟩

/-- Store whose only key holds the single timestamp `0`, reachable by a `hit`
at clock value 0; used by the C5 counterexample. -/
def sZeroTs : Store := [("k", { timestamps := [0], lastAccess := 0 })]

/-- C5 counterexample: when the oldest timestamp surviving the pruning is the
integer `0`, the JavaScript truthiness test `oldestTimestamp ? ... : ...`
takes the falsy branch, and `resetAt` is `now + windowMs = 150` instead of the
claimed `oldest + windowMs = 100`. The state is reachable: a single `hit` at
clock value 0 produces it. -/
theorem resetAt_zero_oldest :
    (hit cfg2_100 0 "k" []).2 = sZeroTs ∧
    prunedTs cfg2_100 50 "k" sZeroTs = [0] ∧
    (check cfg2_100 50 "k" sZeroTs).1.resetAt = 150 ∧
    (0 : Int) + cfg2_100.windowMs ≠ 150 := by
  decide

/-- C5 amended: `resetAt` is the instant the first (oldest) surviving
timestamp exits the window — `oldest + windowMs` — whenever that timestamp is
nonzero; it is `now + windowMs` when no timestamp survives the pruning, and
also — by JavaScript truthiness — when the oldest surviving timestamp is
exactly `0`. -/
theorem resetAt_characterisation (cfg : Config) (now : Int) (key : String)
    (s : Store) :
    ((prunedTs cfg now key s).head? = none →
       (check cfg now key s).1.resetAt = now + cfg.windowMs) ∧
    (∀ t, (prunedTs cfg now key s).head? = some t → t ≠ 0 →
       (check cfg now key s).1.resetAt = t + cfg.windowMs) ∧
    ((prunedTs cfg now key s).head? = some 0 →
       (check cfg now key s).1.resetAt = now + cfg.windowMs) := by
  refine ⟨?_, ?_, ?_⟩
  · intro h
    simp [check_fst, h]
  · intro t ht ht0
    simp [check_fst, ht, ht0]
  · intro h
    simp [check_fst, h]

/-- Witness for C5 amended: a surviving nonzero oldest timestamp `60` yields
`resetAt = 60 + windowMs`. -/
theorem resetAt_characterisation_witness :
    (prunedTs cfg2_100 120 "k" sTwoTs).head? = some 60 ∧
    (check cfg2_100 120 "k" sTwoTs).1.resetAt = 60 + cfg2_100.windowMs :=
  ⟨by decide,
   (resetAt_characterisation cfg2_100 120 "k" sTwoTs).2.1 60 (by decide) (by decide)⟩

/-- The limited flag of `hit` is the one computed by the inner `check`. -/
theorem hit_isLimited (cfg : Config) (now : Int) (key : String) (s : Store) :
    (hit cfg now key s).1.isLimited = (check cfg now key s).1.isLimited := by
  rw [hit_fst]
  split <;> rfl

/-- The limited flag holds iff the in-window count has reached the limit. -/
theorem check_isLimited_iff (cfg : Config) (now : Int) (key : String) (s : Store) :
    (check cfg now key s).1.isLimited = true ↔
      cfg.limit ≤ (prunedTs cfg now key s).length := by
  simp [check_fst, Nat.sub_eq_zero_iff_le]

/-- A `hit` whose pruned window holds fewer timestamps than the limit is
admitted and appends its clock value to the record. -/
theorem hit_step (cfg : Config) (key : String) (s : Store) (acc : List Int)
    (t : Int) (hpr : prunedTs cfg t key s = acc)
    (hroom : acc.length < cfg.limit) :
    (hit cfg t key s).1.isLimited = false ∧
    (hit cfg t key s).2 =
      Store.set s key { timestamps := acc ++ [t], lastAccess := t } := by
  have hlim : (check cfg t key s).1.isLimited = false := by
    rw [Bool.eq_false_iff]
    intro hc
    have := (check_isLimited_iff cfg t key s).mp hc
    rw [hpr] at this
    omega
  constructor
  · rw [hit_isLimited, hlim]
  · rw [hit_eq]
    simp [hlim, hpr]

/-- Running `hit` over a list of clock values all lying inside the window
`(bound - windowMs, bound]`, starting from a record holding `acc` timestamps
that also lie in that window: when the total count stays within the limit,
every hit is admitted and the record ends up holding exactly `acc ++ u`. -/
theorem hitRun_admits (cfg : Config) (key : String) (bound : Int)
    (u : List Int) :
    ∀ (s : Store) (acc : List Int),
      (Store.get s key = none ∧ acc = [] ∨
        ∃ la, Store.get s key = some { timestamps := acc, lastAccess := la }) →
      acc.length + u.length ≤ cfg.limit →
      (∀ x ∈ acc, bound - cfg.windowMs < x) →
      (∀ t ∈ u, bound - cfg.windowMs < t ∧ t ≤ bound) →
      (hitRun cfg key s u).2 = true ∧
      (Store.get (hitRun cfg key s u).1 key = none ∧ acc ++ u = [] ∨
        ∃ la, Store.get (hitRun cfg key s u).1 key =
          some { timestamps := acc ++ u, lastAccess := la }) := by
  induction u with
  | nil =>
      intro s acc hst _ _ _
      simpa [hitRun] using hst
  | cons t u ih =>
      intro s acc hst hlen hacc hu
      have hpr : prunedTs cfg t key s = acc := by
        rcases hst with ⟨hnone, rfl⟩ | ⟨la, hsome⟩
        · simp [prunedTs, hnone]
        · simp only [prunedTs, hsome, Option.getD_some]
          refine List.filter_eq_self.mpr ?_
          intro x hx
          have h1 := hacc x hx
          have h2 := (hu t (by simp)).2
          simp only [decide_eq_true_eq]
          omega
      have hroom : acc.length < cfg.limit := by
        simp only [List.length_cons] at hlen
        omega
      obtain ⟨hnl, hs2⟩ := hit_step cfg key s acc t hpr hroom
      have hget2 : Store.get (hit cfg t key s).2 key =
          some { timestamps := acc ++ [t], lastAccess := t } := by
        rw [hs2]
        exact Store.get_set_self ..
      have hrec := ih (hit cfg t key s).2 (acc ++ [t]) (Or.inr ⟨t, hget2⟩)
        (by simp at hlen ⊢
            omega)
        (by intro x hx
            rcases List.mem_append.mp hx with hx | hx
            · exact hacc x hx
            · have : x = t := by simpa using hx
              subst this
              exact (hu x (by simp)).1)
        (fun t1 ht1 => hu t1 (by simp [ht1]))
      refine ⟨?_, ?_⟩
      · simp [hitRun, hnl, hrec.1]
      · simpa [hitRun, List.append_assoc] using hrec.2

/-- C1: sliding-window admission. For a fresh key and any limiter
configuration with limit `L ≥ 1` and window `W`, run `L` hits at clock values
inside the sub-window `(uK - W, uK]` (a span strictly shorter than `W`): all
`L` are admitted, the `(L+1)`-th hit at `uK` is limited, and any later hit at
least `W` after the first hit — by which point the first timestamp has aged
out of the sliding window — is not limited. -/
theorem sliding_window_admission (cfg : Config) (key : String) (s : Store)
    (u : List Int) (uK : Int)
    (hL : 1 ≤ cfg.limit)
    (hfresh : Store.get s key = none)
    (hlen : u.length = cfg.limit)
    (hwin : ∀ t ∈ u, uK - cfg.windowMs < t ∧ t ≤ uK) :
    (hitRun cfg key s u).2 = true ∧
    (hit cfg uK key (hitRun cfg key s u).1).1.isLimited = true ∧
    (∀ tLate t1, u.head? = some t1 → t1 + cfg.windowMs ≤ tLate →
       (hit cfg tLate key (hit cfg uK key (hitRun cfg key s u).1).2).1.isLimited
         = false) := by
  obtain ⟨hadm, hstate⟩ := hitRun_admits cfg key uK u s []
    (Or.inl ⟨hfresh, rfl⟩) (by simp [hlen]) (by simp) hwin
  rcases hstate with ⟨_, hemp⟩ | ⟨la, hget⟩
  · exfalso
    have hu0 : u = [] := by simpa using hemp
    rw [hu0] at hlen
    simp at hlen
    omega
  · simp only [List.nil_append] at hget
    have hprK : prunedTs cfg uK key (hitRun cfg key s u).1 = u := by
      simp only [prunedTs, hget, Option.getD_some]
      refine List.filter_eq_self.mpr ?_
      intro x hx
      have := (hwin x hx).1
      simp only [decide_eq_true_eq]
      omega
    have hlimK : (check cfg uK key (hitRun cfg key s u).1).1.isLimited = true := by
      rw [check_isLimited_iff, hprK, hlen]
    refine ⟨hadm, ?_, ?_⟩
    · rw [hit_isLimited, hlimK]
    · intro tLate t1 hhead hlate
      have hstore : (hit cfg uK key (hitRun cfg key s u).1).2 =
          Store.set (hitRun cfg key s u).1 key
            { timestamps := u, lastAccess := uK } := by
        rw [hit_eq]
        simp [hlimK, check_snd, hprK]
      have hget2 : Store.get (hit cfg uK key (hitRun cfg key s u).1).2 key =
          some { timestamps := u, lastAccess := uK } := by
        rw [hstore]
        exact Store.get_set_self ..
      obtain ⟨rest, hu⟩ : ∃ rest, u = t1 :: rest := by
        cases u with
        | nil => simp at hhead
        | cons a l =>
            rw [List.head?_cons, Option.some_inj] at hhead
            exact ⟨l, by rw [hhead]⟩
      have hpruneLate :
          prunedTs cfg tLate key (hit cfg uK key (hitRun cfg key s u).1).2 =
            rest.filter (fun x => decide (x > tLate - cfg.windowMs)) := by
        simp only [prunedTs]
        rw [hget2]
        simp only [Option.getD_some]
        rw [hu, List.filter_cons]
        simp [show ¬(tLate - cfg.windowMs < t1) by omega]
      rw [hit_isLimited, Bool.eq_false_iff]
      intro hc
      have hcount := (check_isLimited_iff ..).mp hc
      rw [hpruneLate] at hcount
      have h1 : rest.length = cfg.limit - 1 := by
        rw [hu] at hlen
        simp only [List.length_cons] at hlen
        omega
      have h2 := List.length_filter_le
        (fun x => decide (x > tLate - cfg.windowMs)) rest
      omega

/-- Witness for C1: the staggered scenario of the specification — limit 2,
window 100 ms, hits at 0 and 60 admitted, a hit at 65 limited, a hit at
125 admitted again because the timestamp 0 has aged out. -/
theorem sliding_window_admission_witness :
    (hitRun cfg2_100 "k" [] [0, 60]).2 = true ∧
    (hit cfg2_100 65 "k" (hitRun cfg2_100 "k" [] [0, 60]).1).1.isLimited = true ∧
    (hit cfg2_100 125 "k"
        (hit cfg2_100 65 "k" (hitRun cfg2_100 "k" [] [0, 60]).1).2).1.isLimited
      = false := by
  obtain ⟨h1, h2, h3⟩ := sliding_window_admission cfg2_100 "k" [] [0, 60] 65
    (by decide) (by decide) (by decide) (by decide)
  exact ⟨h1, h2, h3 125 0 (by decide) (by decide)⟩

/-- An operation addressed to one key never touches the record of another. -/
theorem applyOp_get_other (cfg : Config) (op : LimiterOp) (s : Store)
    (B : String) (h : opKey op ≠ B) :
    Store.get (applyOp cfg s op).2 B = Store.get s B := by
  cases op with
  | hitOp k t =>
      simp only [opKey] at h
      simp only [applyOp]
      rw [hit_eq]
      by_cases hl : (check cfg t k s).1.isLimited
      · simp only [hl, if_true, check_snd]
        exact Store.get_set_ne _ _ _ _ (Ne.symm h)
      · simp only [hl, if_false]
        exact Store.get_set_ne _ _ _ _ (Ne.symm h)
  | checkOp k t =>
      simp only [opKey] at h
      simp only [applyOp, check_snd]
      exact Store.get_set_ne _ _ _ _ (Ne.symm h)
  | resetOp k =>
      simp only [opKey] at h
      simp only [applyOp, reset]
      exact Store.get_delete_ne _ _ _ (Ne.symm h)

/-- A sequence of operations on key `A` never touches the record of `B`. -/
theorem runOps_get_other (cfg : Config) (A B : String) (hAB : A ≠ B)
    (ops : List LimiterOp) (hops : ∀ op ∈ ops, opKey op = A) :
    ∀ s : Store, Store.get (runOps cfg s ops) B = Store.get s B := by
  induction ops with
  | nil => intro s; rfl
  | cons op ops ih =>
      intro s
      rw [runOps, ih (fun o ho => hops o (by simp [ho])),
        applyOp_get_other cfg op s B (by rw [hops op (by simp)]; exact hAB)]

/-- C6: keys are independent. After any sequence of `hit`, `check` and `reset`
operations all addressed to key `A` — including exhausting its allowance — the
info that `check` or `hit` would report for a different key `B` is exactly
what it would have been without those operations. -/
theorem keys_independent (cfg : Config) (A B : String) (hAB : A ≠ B)
    (ops : List LimiterOp) (hops : ∀ op ∈ ops, opKey op = A)
    (s : Store) (now : Int) :
    (check cfg now B (runOps cfg s ops)).1 = (check cfg now B s).1 ∧
    (hit cfg now B (runOps cfg s ops)).1 = (hit cfg now B s).1 := by
  have hget := runOps_get_other cfg A B hAB ops hops s
  exact ⟨check_fst_congr cfg now B _ _ hget, hit_fst_congr cfg now B _ _ hget⟩

/-- Operations exhausting key "a", for the C6 witness. -/
def opsOnA : List LimiterOp :=
  [LimiterOp.hitOp "a" 0, LimiterOp.hitOp "a" 1, LimiterOp.hitOp "a" 2,
   LimiterOp.checkOp "a" 3, LimiterOp.resetOp "a"]

/-- Witness for C6: hammering and resetting key "a" leaves the info reported
for key "b" unchanged. -/
theorem keys_independent_witness :
    (check cfg2_100 5 "b" (runOps cfg2_100 [] opsOnA)).1 =
      (check cfg2_100 5 "b" []).1 ∧
    (hit cfg2_100 5 "b" (runOps cfg2_100 [] opsOnA)).1 =
      (hit cfg2_100 5 "b" []).1 :=
  keys_independent cfg2_100 "a" "b" (by decide) opsOnA (by decide) [] 5

instance (t0 : Int) (op : LimiterOp) : Decidable (opTimeGE t0 op) :=
  match op with
  | .hitOp _ now => inferInstanceAs (Decidable (t0 ≤ now))
  | .checkOp _ now => inferInstanceAs (Decidable (t0 ≤ now))
  | .resetOp _ => inferInstanceAs (Decidable True)

/-- Simulation relation for C10: the two stores agree on every key, except
that the first may lack a record the second still holds, provided all of that
record's timestamps have aged out of every window opened at `t0` or later. -/
def StoreRel (W t0 : Int) (s1 s2 : Store) : Prop :=
  ∀ k, Store.get s1 k = Store.get s2 k ∨
    (Store.get s1 k = none ∧ ∃ r, Store.get s2 k = some r ∧
       ∀ ts ∈ r.timestamps, ts + W < t0)

theorem StoreRel.set_same {W t0 : Int} {s1 s2 : Store}
    (h : StoreRel W t0 s1 s2) (key : String) (r : RateLimitRecord) :
    StoreRel W t0 (Store.set s1 key r) (Store.set s2 key r) := by
  intro k
  by_cases hk : k = key
  · subst hk
    left
    rw [Store.get_set_self, Store.get_set_self]
  · rw [Store.get_set_ne _ _ _ _ hk, Store.get_set_ne _ _ _ _ hk]
    exact h k

theorem StoreRel.delete_same {W t0 : Int} {s1 s2 : Store}
    (h : StoreRel W t0 s1 s2) (key : String) :
    StoreRel W t0 (Store.delete s1 key) (Store.delete s2 key) := by
  intro k
  by_cases hk : k = key
  · subst hk
    left
    rw [Store.get_delete_self, Store.get_delete_self]
  · rw [Store.get_delete_ne _ _ _ hk, Store.get_delete_ne _ _ _ hk]
    exact h k

/-- Related stores prune to the same window content at any time `t ≥ t0`:
a record all of whose timestamps predate every such window prunes to the
empty list, exactly like a missing record. -/
theorem StoreRel.pruned_eq {cfg : Config} {t0 : Int} {s1 s2 : Store}
    (h : StoreRel cfg.windowMs t0 s1 s2) (k : String) (t : Int) (ht : t0 ≤ t) :
    prunedTs cfg t k s1 = prunedTs cfg t k s2 := by
  rcases h k with heq | ⟨h1, r, h2, hstale⟩
  · simp [prunedTs, heq]
  · simp only [prunedTs, h1, h2, Option.getD_some, Option.getD_none]
    rw [List.filter_nil, eq_comm, List.filter_eq_nil_iff]
    intro ts hts
    have := hstale ts hts
    simp only [decide_eq_true_eq]
    omega

theorem StoreRel.check_fst_eq {cfg : Config} {t0 : Int} {s1 s2 : Store}
    (h : StoreRel cfg.windowMs t0 s1 s2) (k : String) (t : Int) (ht : t0 ≤ t) :
    (check cfg t k s1).1 = (check cfg t k s2).1 := by
  simp [check_fst, h.pruned_eq k t ht]

theorem StoreRel.hit_fst_eq {cfg : Config} {t0 : Int} {s1 s2 : Store}
    (h : StoreRel cfg.windowMs t0 s1 s2) (k : String) (t : Int) (ht : t0 ≤ t) :
    (hit cfg t k s1).1 = (hit cfg t k s2).1 := by
  rw [hit_fst, hit_fst, h.check_fst_eq k t ht]

theorem StoreRel.check_preserved {cfg : Config} {t0 : Int} {s1 s2 : Store}
    (h : StoreRel cfg.windowMs t0 s1 s2) (k : String) (t : Int) (ht : t0 ≤ t) :
    StoreRel cfg.windowMs t0 (check cfg t k s1).2 (check cfg t k s2).2 := by
  rw [check_snd, check_snd, h.pruned_eq k t ht]
  exact h.set_same k _

theorem StoreRel.hit_preserved {cfg : Config} {t0 : Int} {s1 s2 : Store}
    (h : StoreRel cfg.windowMs t0 s1 s2) (k : String) (t : Int) (ht : t0 ≤ t) :
    StoreRel cfg.windowMs t0 (hit cfg t k s1).2 (hit cfg t k s2).2 := by
  have hc := h.check_fst_eq k t ht
  by_cases hl : (check cfg t k s1).1.isLimited = true
  · have hl2 : (check cfg t k s2).1.isLimited = true := by rw [← hc]; exact hl
    rw [hit_eq, hit_eq, if_pos hl, if_pos hl2]
    exact h.check_preserved k t ht
  · have hl2 : ¬(check cfg t k s2).1.isLimited = true := by rw [← hc]; exact hl
    rw [hit_eq, hit_eq, if_neg hl, if_neg hl2]
    simp only
    rw [h.pruned_eq k t ht]
    exact h.set_same k _

/-- Related stores are indistinguishable by any sequence of operations whose
clock values do not go below `t0`: every reported info is the same. -/
theorem runTrace_congr (cfg : Config) (t0 : Int) (ops : List LimiterOp)
    (hops : ∀ op ∈ ops, opTimeGE t0 op) :
    ∀ s1 s2 : Store, StoreRel cfg.windowMs t0 s1 s2 →
      runTrace cfg s1 ops = runTrace cfg s2 ops := by
  induction ops with
  | nil => intro s1 s2 _; rfl
  | cons op ops ih =>
      intro s1 s2 h
      have hop := hops op (by simp)
      have hrest : ∀ o ∈ ops, opTimeGE t0 o := fun o ho => hops o (by simp [ho])
      cases op with
      | hitOp k t =>
          have ht : t0 ≤ t := hop
          rw [runTrace, runTrace]
          simp only [applyOp]
          rw [h.hit_fst_eq k t ht, ih hrest _ _ (h.hit_preserved k t ht)]
      | checkOp k t =>
          have ht : t0 ≤ t := hop
          rw [runTrace, runTrace]
          simp only [applyOp]
          rw [h.check_fst_eq k t ht,
            ih hrest _ _ (h.check_preserved k t ht)]
      | resetOp k =>
          rw [runTrace, runTrace]
          simp only [applyOp, reset]
          rw [ih hrest _ _ (h.delete_same k)]

/-- C10: cleanup eviction is observationally harmless. On a store with unique
keys whose records never hold a timestamp above their `lastAccess` (as every
reachable store does, since `check` stamps `lastAccess := now` whenever it
touches the timestamps), evicting the records idle for more than
`2 × windowMs` changes no result of any subsequent `check`, `hit` or `reset`
whose clock values do not go below the sweep instant: the traces over the
swept and the unswept store are identical. -/
theorem cleanup_harmless (cfg : Config) (t0 : Int) (s : Store)
    (hW : 0 ≤ cfg.windowMs)
    (hnd : (s.map Prod.fst).Nodup)
    (hinv : ∀ e ∈ s, ∀ ts ∈ (Prod.snd e).timestamps, ts ≤ (Prod.snd e).lastAccess)
    (ops : List LimiterOp) (hops : ∀ op ∈ ops, opTimeGE t0 op) :
    runTrace cfg (cleanup cfg t0 s) ops = runTrace cfg s ops := by
  apply runTrace_congr cfg t0 ops hops
  intro k
  have hf := Store.get_filter
    (fun kv => decide (¬ (t0 - kv.2.lastAccess > cfg.windowMs * 2))) s k hnd
  cases hg : Store.get s k with
  | none =>
      left
      rw [cleanup, hf, hg]
      rfl
  | some r =>
      by_cases hstale : t0 - r.lastAccess > cfg.windowMs * 2
      · right
        refine ⟨?_, r, rfl, ?_⟩
        · rw [cleanup, hf, hg]
          simp
          omega
        · intro ts hts
          have hle := hinv (k, r) (Store.get_mem s k r hg) ts hts
          simp only at hle
          omega
      · left
        rw [cleanup, hf, hg]
        simp
        omega

/-- Late operations touching both keys, for the C10 witness. -/
def opsLate : List LimiterOp :=
  [LimiterOp.hitOp "old" 1000, LimiterOp.checkOp "new" 1000,
   LimiterOp.hitOp "new" 1001, LimiterOp.resetOp "old",
   LimiterOp.hitOp "old" 1002]

/-- Witness for C10: sweeping the store holding the abandoned key "old" at
`t0 = 1000` leaves the results of all later operations unchanged. -/
theorem cleanup_harmless_witness :
    runTrace cfg2_100 (cleanup cfg2_100 1000 sOldNew) opsLate =
      runTrace cfg2_100 sOldNew opsLate :=
  cleanup_harmless cfg2_100 1000 sOldNew (by decide) (by decide) (by decide)
    opsLate (by decide)

end RateLimit
